import Mathlib

/-!
Verification of `src/analysis.py` (stock-analysis).

Shallow embedding conventions:
* Calendar dates are modelled as `Nat` (Python compares `datetime` values by a
  linear order; only the order and equality are ever used).
* Prices are modelled as `ℚ` (exact arithmetic).  Python raises
  `ZeroDivisionError` on a zero denominator; in `ℚ` division by zero is total
  with `x / 0 = 0`, so the theorems carry explicit nonzero-denominator
  hypotheses wherever the claim needs the denominator to be nonzero.
* The alignment generator `align_data` is a loop indexed by cursor positions;
  it is embedded with an explicit fuel parameter, `none` standing for a run
  that does not finish within the given fuel or that raises (the
  `dates[0]` IndexError of an empty family of datasets).  The top-level
  `align_data` supplies fuel `totalRows + 1`, which is proved sufficient:
  every loop iteration either terminates the loop or advances a cursor.
* The random sampler is parametrised by an oracle `draws : Nat → Nat`; Python's
  `random.randint lo hi` becomes a total mapping of the draw into `[lo, hi]`
  that fails (`none`) exactly when the range is empty, which is when Python
  raises `ValueError`.  Every outcome of the real sampler is realised by some
  oracle, so theorems quantified over `draws` cover all behaviours.
* `extract_data` returns `Except ExtractError`, with `ExtractError.indexError`
  standing for Python's `IndexError` on a bad row/series index and
  `ExtractError.fieldNotFound` for the `KeyError` raised by
  `row._asdict()[field]` on an unrecognized field name.
-/

namespace StockAnalysis

/-- Embeds the `DataRow` namedtuple: one trading day's OHLCV data.  The Python
field `open` is spelled `open_` because `open` is a Lean keyword. -/
structure DataRow where
  date : Nat
  open_ : ℚ
  high : ℚ
  low : ℚ
  close : ℚ
  adj_close : ℚ
  volume : Nat
deriving DecidableEq

instance : Inhabited DataRow := ⟨⟨0, 0, 0, 0, 0, 0, 0⟩⟩

/-- Values stored in a `DataRow` field: the `date` and `volume` fields hold
integers (dates/counts), the price fields hold rationals. -/
inductive FieldValue where
  | natVal (n : Nat)
  | ratVal (q : ℚ)
deriving DecidableEq

/-- Embeds `row._asdict()[field]`: field lookup by name, `none` when the name
is not one of the namedtuple's fields (Python raises `KeyError`). -/
def DataRow.asdict (r : DataRow) : String → Option FieldValue
  | "date" => some (.natVal r.date)
  | "open" => some (.ratVal r.open_)
  | "high" => some (.ratVal r.high)
  | "low" => some (.ratVal r.low)
  | "close" => some (.ratVal r.close)
  | "adj_close" => some (.ratVal r.adj_close)
  | "volume" => some (.natVal r.volume)
  | _ => none

/-- The field names of the `DataRow` namedtuple. -/
def recognizedField (f : String) : Prop :=
  f ∈ (["date", "open", "high", "low", "close", "adj_close", "volume"] : List String)

instance (f : String) : Decidable (recognizedField f) := by
  unfold recognizedField; infer_instance

/-- Dates of a series, in order. -/
def datesOf (ds : List DataRow) : List Nat := ds.map DataRow.date

/-- Embeds the scan in the body of `align_data`'s loop: the first index `i`
(in order, index 0 first) whose date differs from `first_date`, together with
that date; `none` when every date equals `first_date`. -/
def findMismatch (first_date : Nat) : List Nat → Option (Nat × Nat)
  | [] => none
  | d :: rest =>
    if d = first_date then
      (findMismatch first_date rest).map (fun p => (p.1 + 1, p.2))
    else
      some (0, d)

/-- Embeds `positions[i] += 1`. -/
def bumpAt : List Nat → Nat → List Nat
  | [], _ => []
  | p :: rest, 0 => (p + 1) :: rest
  | p :: rest, i + 1 => p :: bumpAt rest i

/-- Drops the head of the `i`-th list (advancing the `i`-th cursor, viewed on
the remaining suffixes). -/
def tailAt : Nat → List (List DataRow) → List (List DataRow)
  | _, [] => []
  | 0, ds :: rest => ds.tail :: rest
  | i + 1, ds :: rest => ds :: tailAt i rest

/-- Embeds the loop of `align_data` (src/analysis.py lines 43-70), state kept
as cursor positions into the immutable datasets.  One fuel unit is one
iteration of the `while True` loop; `none` models either fuel exhaustion or
the `IndexError` raised by `first_date = dates[0]` when there are no
datasets. -/
def align_data_loop (all_datasets : List (List DataRow)) (positions : List Nat) :
    Nat → Option (List (List DataRow))
  | 0 => none
  | fuel + 1 =>
    if (positions.zip (all_datasets.map List.length)).any (fun pl => pl.2 ≤ pl.1) then
      some []
    else
      let datarows := (all_datasets.zip positions).map (fun dp => dp.1.getD dp.2 default)
      let dates := datarows.map DataRow.date
      match dates with
      | [] => none
      | first_date :: _ =>
        match findMismatch first_date dates with
        | some id =>
          if id.2 < first_date then
            align_data_loop all_datasets (bumpAt positions id.1) fuel
          else
            align_data_loop all_datasets (bumpAt positions 0) fuel
        | none =>
          (align_data_loop all_datasets (positions.map (· + 1)) fuel).map
            (fun out => datarows :: out)

/-- Total number of rows across all series. -/
def totalRows (all_datasets : List (List DataRow)) : Nat :=
  (all_datasets.map List.length).sum

/-- Embeds `align_data` (src/analysis.py lines 39-70): all cursors start at 0;
fuel `totalRows + 1` is proved sufficient for the loop to finish. -/
def align_data (all_datasets : List (List DataRow)) : Option (List (List DataRow)) :=
  align_data_loop all_datasets (List.replicate all_datasets.length 0)
    (totalRows all_datasets + 1)

/-- The same loop with the state abstracted to the not-yet-consumed suffix of
each dataset (cursor `p` into `ds` becomes `ds.drop p`); proved equal to
`align_data_loop` below. -/
def align_steps : Nat → List (List DataRow) → Option (List (List DataRow))
  | 0, _ => none
  | fuel + 1, dss =>
    if dss.any List.isEmpty then
      some []
    else
      let datarows := dss.map (fun ds => ds.headD default)
      let dates := datarows.map DataRow.date
      match dates with
      | [] => none
      | first_date :: _ =>
        match findMismatch first_date dates with
        | some id =>
          if id.2 < first_date then
            align_steps fuel (tailAt id.1 dss)
          else
            align_steps fuel (tailAt 0 dss)
        | none =>
          (align_steps fuel (dss.map List.tail)).map (fun out => datarows :: out)

/-- Dates that occur in every dataset, listed in the order of the first
dataset (whose strictly increasing dates make this list duplicate-free). -/
def commonList (dss : List (List DataRow)) : List Nat :=
  (datesOf (dss.headD [])).filter (fun d => dss.all (fun ds => decide (d ∈ datesOf ds)))

/-- The set of dates of one series. -/
def dateSet (ds : List DataRow) : Finset Nat := (datesOf ds).toFinset

/-- Modelled from the spec: the intersection of the date sets of a family of
series ("the number of dates that occur in every one of the input series"),
used to compare `align_data`'s output count against the spec's description. -/
def commonDateSet : List (List DataRow) → Finset Nat
  | [] => ∅
  | ds :: rest => rest.foldl (fun acc ds2 => acc ∩ dateSet ds2) (dateSet ds)

/-- Embeds `random.randint lo hi`, fed by one value of the oracle stream: the
draw is mapped into `[lo, hi]`; when the range is empty (`hi < lo`) Python
raises `ValueError`, modelled as `none`.  Every value of `[lo, hi]` is reached
by some draw, so quantifying over draws covers all sampler outcomes. -/
def randint (lo hi : Int) (draw : Nat) : Option Int :=
  if hi < lo then none else some (lo + (draw : Int) % (hi - lo + 1))

/-- Embeds the loop of `gen_windows`: `w` is the loop counter (which draw of
the oracle stream is consumed next). -/
def gen_windows_loop (max_start : Int) (window_size : Nat) (draws : Nat → Nat) :
    Nat → Nat → Option (List (List Nat))
  | 0, _ => some []
  | n + 1, w =>
    match randint 0 max_start (draws w) with
    | none => none
    | some start =>
      (gen_windows_loop max_start window_size draws n (w + 1)).map
        (fun ws => List.range' start.toNat window_size :: ws)

/-- Embeds `gen_windows` (src/analysis.py lines 72-76): `num_windows` windows,
each `range start (start + window_size)` with `start` sampled from
`[0, data_length - window_size]`. -/
def gen_windows (num_windows window_size data_length : Nat) (draws : Nat → Nat) :
    Option (List (List Nat)) :=
  gen_windows_loop ((data_length : Int) - (window_size : Int)) window_size draws num_windows 0

/-- Error class of `extract_data`: Python's `IndexError` (bad row or series
index) and the `KeyError` of `_asdict()[field]` (unrecognized field name). -/
inductive ExtractError where
  | indexError
  | fieldNotFound
deriving DecidableEq

/-- Embeds `extract_data` (src/analysis.py lines 78-83): one value per window
index, reading `field_to_extract` off the record at `dataset_num` inside each
aligned row; the first failing access aborts the loop with its error. -/
def extract_data (aligned_data : List (List DataRow)) (dataset_num : Nat)
    (field_to_extract : String) : List Nat → Except ExtractError (List FieldValue)
  | [] => .ok []
  | row_ind :: rest =>
    match aligned_data[row_ind]? with
    | none => .error .indexError
    | some row =>
      match row[dataset_num]? with
      | none => .error .indexError
      | some ds_row =>
        match ds_row.asdict field_to_extract with
        | none => .error .fieldNotFound
        | some v =>
          (extract_data aligned_data dataset_num field_to_extract rest).map
            (fun vs => v :: vs)

/-- Embeds `buy_and_hold_n` (src/analysis.py lines 85-88). -/
def buy_and_hold_n (dataset_num : Nat) : List DataRow → List DataRow → ℚ :=
  fun day next_day =>
    (next_day.getD dataset_num default).high / (day.getD dataset_num default).high

/-- Embeds `buy_close_sell_open_n` (src/analysis.py lines 90-93). -/
def buy_close_sell_open_n (dataset_num : Nat) : List DataRow → List DataRow → ℚ :=
  fun day next_day =>
    (next_day.getD dataset_num default).open_ / (day.getD dataset_num default).close

/-- Embeds Python's builtin `min` on a nonempty list (ties resolved to the
value itself, which is all `.index` below can observe); Python raises on an
empty list, here an unused junk value 0. -/
def pyMin : List ℚ → ℚ
  | [] => 0
  | [x] => x
  | x :: y :: rest => min x (pyMin (y :: rest))

/-- Embeds Python's `list.index x`: position of the first occurrence (Python
raises when absent, here a junk value `length`). -/
def listIndex (x : ℚ) : List ℚ → Nat
  | [] => 0
  | y :: rest => if y = x then 0 else listIndex x rest + 1

/-- The intraday ratios `close/open` of one aligned row, as computed on day 1
of `shifting_sands`. -/
def price_drops_day1 (day : List DataRow) : List ℚ :=
  day.map (fun stock => stock.close / stock.open_)

/-- The series index `shifting_sands` selects: first occurrence of the minimal
intraday ratio. -/
def worst_stock (day : List DataRow) : Nat :=
  listIndex (pyMin (price_drops_day1 day)) (price_drops_day1 day)

/-- Embeds `shifting_sands` (src/analysis.py lines 95-102). -/
def shifting_sands (day next_day : List DataRow) : ℚ :=
  (next_day.getD (worst_stock day) default).open_ / (day.getD (worst_stock day) default).close

/-- Embeds the inner loop of `simulate_strategy`: fold over the consecutive
index pairs of a window, each step multiplying the last value by the
strategy's factor for the adjacent aligned rows. -/
def sim_pairs (aligned_data : List (List DataRow))
    (selection_strategy : List DataRow → List DataRow → ℚ) :
    ℚ → List (Nat × Nat) → List ℚ
  | _, [] => []
  | last, (index1, index2) :: rest =>
    let new_price := last * selection_strategy
      (aligned_data.getD index1 []) (aligned_data.getD index2 [])
    new_price :: sim_pairs aligned_data selection_strategy new_price rest

/-- The equity curve of one window: `[initial_value]` extended through the
pairs `zip window window.tail` (Python's `zip(window, window[1:])`). -/
def simulate_window (aligned_data : List (List DataRow))
    (selection_strategy : List DataRow → List DataRow → ℚ)
    (window : List Nat) (initial_value : ℚ) : List ℚ :=
  initial_value ::
    sim_pairs aligned_data selection_strategy initial_value (window.zip window.tail)

/-- Embeds `simulate_strategy` (src/analysis.py lines 109-119): one equity
curve per window (Python's default `initial_value = 100.0` is passed
explicitly here). -/
def simulate_strategy (aligned_data : List (List DataRow))
    (selection_strategy : List DataRow → List DataRow → ℚ)
    (windows : List (List Nat)) (initial_value : ℚ) : List (List ℚ) :=
  windows.map (fun window => simulate_window aligned_data selection_strategy window initial_value)

/-- Embeds the body of `normalize_rows` for one row: `first = row[0]` (the
`IndexError` on an empty row cannot fire, an empty row maps to an empty row),
then elementwise `(p - first) / first`. -/
def normalize_row (row : List ℚ) : List ℚ :=
  let first := row.headD 0
  row.map (fun p => (p - first) / first)

/-- Embeds `normalize_rows` (src/analysis.py lines 122-125). -/
def normalize_rows (data_array : List (List ℚ)) : List (List ℚ) :=
  data_array.map normalize_row

/-- Row constructor used by concrete witness inputs: a given date with
placeholder prices. -/
def mkRow (d : Nat) : DataRow := ⟨d, 1, 1, 1, 1, 1, 1⟩

/-! ### Normalizer (C8) -/

/-- C8: on a nonempty curve whose first element is nonzero, `normalize_row`
keeps the length, sends position 0 to 0, and sends position `k` to
`(curve[k] - curve[0]) / curve[0]`. -/
theorem normalize_row_spec (row : List ℚ) (hrow : row ≠ []) (h0 : row.headD 0 ≠ 0) :
    (normalize_row row).length = row.length ∧
    (normalize_row row).getD 0 0 = 0 ∧
    ∀ k, k < row.length →
      (normalize_row row).getD k 0 = (row.getD k 0 - row.headD 0) / row.headD 0 := by
  obtain ⟨a, t, rfl⟩ := List.exists_cons_of_ne_nil hrow
  refine ⟨by simp [normalize_row], by simp [normalize_row], ?_⟩
  intro k hk
  have hk' : k < ((a :: t).map (fun p => (p - a) / a)).length := by simpa using hk
  simp only [normalize_row, List.headD_cons]
  rw [List.getD_eq_getElem _ _ hk', List.getD_eq_getElem _ _ hk, List.getElem_map]

/-- Witness for C8 at the spec's concrete curve `[100, 110, 121]`. -/
theorem normalize_row_spec_witness :
    (([100, 110, 121] : List ℚ) ≠ [] ∧ ([100, 110, 121] : List ℚ).headD 0 ≠ 0) ∧
    ((normalize_row [100, 110, 121]).length = ([100, 110, 121] : List ℚ).length ∧
      (normalize_row [100, 110, 121]).getD 0 0 = 0 ∧
      ∀ k, k < ([100, 110, 121] : List ℚ).length →
        (normalize_row [100, 110, 121]).getD k 0 =
          (([100, 110, 121] : List ℚ).getD k 0 - ([100, 110, 121] : List ℚ).headD 0) /
            ([100, 110, 121] : List ℚ).headD 0) :=
  ⟨⟨by decide, by decide⟩, normalize_row_spec [100, 110, 121] (by decide) (by decide)⟩

/-! ### WindowSampler (C6) -/

/-- Every window produced by the sampler loop is a contiguous range of
`window_size` indices starting no later than `max_start`, and there is one
window per requested draw. -/
lemma gen_windows_loop_spec (max_start : Int) (window_size : Nat) (draws : Nat → Nat)
    (hms : 0 ≤ max_start) :
    ∀ num w, ∃ ws, gen_windows_loop max_start window_size draws num w = some ws ∧
      ws.length = num ∧
      ∀ x ∈ ws, ∃ start : Nat, x = List.range' start window_size ∧
        x.length = window_size ∧ (start : Int) ≤ max_start := by
  intro num
  induction num with
  | zero => exact fun w => ⟨[], rfl, rfl, by simp⟩
  | succ n ih =>
    intro w
    obtain ⟨ws, hws, hlen, hmem⟩ := ih (w + 1)
    have hrand : randint 0 max_start (draws w) =
        some (0 + (draws w : Int) % (max_start - 0 + 1)) := by
      unfold randint
      rw [if_neg (not_lt.mpr hms)]
    have hd : (0:Int) ≤ (draws w : Int) % (max_start - 0 + 1) := by
      apply Int.emod_nonneg
      omega
    have hd2 : (draws w : Int) % (max_start - 0 + 1) < max_start + 1 := by
      have := Int.emod_lt_of_pos (draws w : Int) (b := max_start - 0 + 1) (by omega)
      omega
    refine ⟨List.range' (0 + (draws w : Int) % (max_start - 0 + 1)).toNat window_size :: ws,
      ?_, by simp [hlen], ?_⟩
    · unfold gen_windows_loop
      rw [hrand, hws]
      rfl
    · intro x hx
      rcases List.mem_cons.mp hx with h | h
      · subst h
        refine ⟨_, rfl, List.length_range' _ _ _, ?_⟩
        rw [Int.toNat_of_nonneg (by omega)]
        omega
      · exact hmem x h

/-- C6: when `window_size ≤ data_length`, `gen_windows` yields exactly
`num_windows` windows, each a contiguous range of exactly `window_size`
indices with `start + window_size ≤ data_length`; when
`window_size > data_length` and at least one window is requested, it fails
(Python's `random.randint` raises on the empty range). -/
theorem gen_windows_spec (num_windows window_size data_length : Nat) (draws : Nat → Nat) :
    (window_size ≤ data_length →
      ∃ ws, gen_windows num_windows window_size data_length draws = some ws ∧
        ws.length = num_windows ∧
        ∀ x ∈ ws, ∃ start : Nat, x = List.range' start window_size ∧
          x.length = window_size ∧ start + window_size ≤ data_length) ∧
    (data_length < window_size → 1 ≤ num_windows →
      gen_windows num_windows window_size data_length draws = none) := by
  constructor
  · intro hle
    have hms : (0:Int) ≤ (data_length : Int) - (window_size : Int) := by omega
    obtain ⟨ws, h1, h2, h3⟩ :=
      gen_windows_loop_spec ((data_length : Int) - (window_size : Int)) window_size draws hms
        num_windows 0
    refine ⟨ws, h1, h2, ?_⟩
    intro x hx
    obtain ⟨s, hx1, hx2, hx3⟩ := h3 x hx
    exact ⟨s, hx1, hx2, by omega⟩
  · intro hlt hnum
    cases num_windows with
    | zero => omega
    | succ n =>
      unfold gen_windows gen_windows_loop randint
      rw [if_pos (by omega)]

/-- Witness for C6: both sides of the contract at concrete inputs
(`2` windows of size `2` over `3` aligned rows; a size-`2` request over `1`
row fails). -/
theorem gen_windows_spec_witness :
    ((2 ≤ 3 ∧
      ∃ ws, gen_windows 2 2 3 (fun n => n) = some ws ∧ ws.length = 2 ∧
        ∀ x ∈ ws, ∃ start : Nat, x = List.range' start 2 ∧
          x.length = 2 ∧ start + 2 ≤ 3) ∧
    (1 < 2 ∧ 1 ≤ 1 ∧ gen_windows 1 2 1 (fun n => n) = none)) :=
  ⟨⟨by decide, (gen_windows_spec 2 2 3 (fun n => n)).1 (by decide)⟩,
    by decide, by decide, (gen_windows_spec 1 2 1 (fun n => n)).2 (by decide) (by decide)⟩

/-! ### ShiftingSands (C7) -/

lemma pyMin_cons_cons (x y : ℚ) (rest : List ℚ) :
    pyMin (x :: y :: rest) = min x (pyMin (y :: rest)) := rfl

/-- Python's `min` bounds every element of the list from below. -/
lemma pyMin_le (l : List ℚ) : ∀ x ∈ l, pyMin l ≤ x := by
  induction l with
  | nil => simp
  | cons a t ih =>
    intro x hx
    cases t with
    | nil =>
      rw [List.mem_singleton.mp hx]
      exact le_refl _
    | cons b t2 =>
      rw [pyMin_cons_cons]
      rcases List.mem_cons.mp hx with h | h
      · rw [h]
        exact min_le_left _ _
      · exact le_trans (min_le_right _ _) (ih x h)

/-- Python's `min` of a nonempty list is an element of the list. -/
lemma pyMin_mem (l : List ℚ) (hne : l ≠ []) : pyMin l ∈ l := by
  induction l with
  | nil => exact absurd rfl hne
  | cons a t ih =>
    cases t with
    | nil => simp [pyMin]
    | cons b t2 =>
      rw [pyMin_cons_cons]
      rcases le_total a (pyMin (b :: t2)) with h | h
      · rw [min_eq_left h]
        exact List.mem_cons_self _ _
      · rw [min_eq_right h]
        exact List.mem_cons_of_mem _ (ih (by simp))

/-- Python's `list.index` of a member is in bounds. -/
lemma listIndex_lt_length (x : ℚ) : ∀ (l : List ℚ), x ∈ l → listIndex x l < l.length := by
  intro l
  induction l with
  | nil => simp
  | cons y t ih =>
    intro hx
    by_cases hy : y = x
    · simp [listIndex, hy]
    · have hxt : x ∈ t := by
        rcases List.mem_cons.mp hx with h | h
        · exact absurd h.symm hy
        · exact h
      simpa [listIndex, hy] using ih hxt

/-- Python's `list.index` of a member points at that value. -/
lemma getD_listIndex (x : ℚ) : ∀ (l : List ℚ), x ∈ l → l.getD (listIndex x l) 0 = x := by
  intro l
  induction l with
  | nil => simp
  | cons y t ih =>
    intro hx
    by_cases hy : y = x
    · simp [listIndex, hy]
    · have hxt : x ∈ t := by
        rcases List.mem_cons.mp hx with h | h
        · exact absurd h.symm hy
        · exact h
      simpa [listIndex, hy] using ih hxt

/-- Python's `list.index` is the first occurrence: positions before it hold
other values. -/
lemma getD_ne_of_lt_listIndex (x : ℚ) :
    ∀ (l : List ℚ) (j : Nat), j < listIndex x l → l.getD j 0 ≠ x := by
  intro l
  induction l with
  | nil => simp [listIndex]
  | cons y t ih =>
    intro j hj
    by_cases hy : y = x
    · simp [listIndex, hy] at hj
    · cases j with
      | zero => simpa using hy
      | succ j2 =>
        have hj2 : j2 < listIndex x t := by
          simp only [listIndex, hy, if_false] at hj
          omega
        simpa using ih j2 hj2

/-- C7: `shifting_sands` picks the series with the minimal intraday
`close/open` ratio on day 1 (ties resolved to the lowest index, positions
before the pick being strictly worse than it is impossible — they are
strictly larger), and returns `next_day[worst].open / day[worst].close`. -/
theorem shifting_sands_spec (day next_day : List DataRow) (hday : day ≠ [])
    (hopen : ∀ r ∈ day, r.open_ ≠ 0) :
    worst_stock day < day.length ∧
    (∀ j, j < day.length →
      (price_drops_day1 day).getD (worst_stock day) 0 ≤ (price_drops_day1 day).getD j 0) ∧
    (∀ j, j < worst_stock day →
      (price_drops_day1 day).getD (worst_stock day) 0 < (price_drops_day1 day).getD j 0) ∧
    shifting_sands day next_day =
      (next_day.getD (worst_stock day) default).open_ /
        (day.getD (worst_stock day) default).close := by
  have hlen : (price_drops_day1 day).length = day.length := by
    simp [price_drops_day1]
  have hne : price_drops_day1 day ≠ [] := by
    intro h
    exact hday (by simpa [price_drops_day1] using congrArg List.length h)
  have hmem := pyMin_mem _ hne
  have h1 : worst_stock day < day.length := hlen ▸ listIndex_lt_length _ _ hmem
  have hgd : (price_drops_day1 day).getD (worst_stock day) 0 = pyMin (price_drops_day1 day) :=
    getD_listIndex _ _ hmem
  refine ⟨h1, ?_, ?_, rfl⟩
  · intro j hj
    rw [hgd]
    have hjlen : j < (price_drops_day1 day).length := by omega
    rw [List.getD_eq_getElem _ _ hjlen]
    exact pyMin_le _ _ (List.getElem_mem hjlen)
  · intro j hj
    have hne2 := getD_ne_of_lt_listIndex _ _ j hj
    have hjlen : j < (price_drops_day1 day).length := by omega
    have hle : (price_drops_day1 day).getD (worst_stock day) 0 ≤ (price_drops_day1 day).getD j 0 := by
      rw [hgd, List.getD_eq_getElem _ _ hjlen]
      exact pyMin_le _ _ (List.getElem_mem hjlen)
    rcases lt_or_eq_of_le hle with h | h
    · exact h
    · exact absurd (by rw [← h, hgd]) hne2

/-- Witness for C7: two series tied at ratio 1/2 and a third at 3/4; the
engine picks index 0 and returns `next_day[0].open / day[0].close`. -/
theorem shifting_sands_spec_witness :
    (([⟨1, 2, 1, 1, 1, 1, 1⟩, ⟨1, 4, 1, 1, 2, 1, 1⟩, ⟨1, 4, 1, 1, 3, 1, 1⟩] : List DataRow) ≠ [] ∧
      ∀ r ∈ ([⟨1, 2, 1, 1, 1, 1, 1⟩, ⟨1, 4, 1, 1, 2, 1, 1⟩, ⟨1, 4, 1, 1, 3, 1, 1⟩] : List DataRow),
        r.open_ ≠ 0) ∧
    (worst_stock [⟨1, 2, 1, 1, 1, 1, 1⟩, ⟨1, 4, 1, 1, 2, 1, 1⟩, ⟨1, 4, 1, 1, 3, 1, 1⟩] <
        ([⟨1, 2, 1, 1, 1, 1, 1⟩, ⟨1, 4, 1, 1, 2, 1, 1⟩, ⟨1, 4, 1, 1, 3, 1, 1⟩] : List DataRow).length ∧
      (∀ j, j < ([⟨1, 2, 1, 1, 1, 1, 1⟩, ⟨1, 4, 1, 1, 2, 1, 1⟩, ⟨1, 4, 1, 1, 3, 1, 1⟩] : List DataRow).length →
        (price_drops_day1 [⟨1, 2, 1, 1, 1, 1, 1⟩, ⟨1, 4, 1, 1, 2, 1, 1⟩, ⟨1, 4, 1, 1, 3, 1, 1⟩]).getD
            (worst_stock [⟨1, 2, 1, 1, 1, 1, 1⟩, ⟨1, 4, 1, 1, 2, 1, 1⟩, ⟨1, 4, 1, 1, 3, 1, 1⟩]) 0 ≤
          (price_drops_day1 [⟨1, 2, 1, 1, 1, 1, 1⟩, ⟨1, 4, 1, 1, 2, 1, 1⟩, ⟨1, 4, 1, 1, 3, 1, 1⟩]).getD j 0) ∧
      (∀ j, j < worst_stock [⟨1, 2, 1, 1, 1, 1, 1⟩, ⟨1, 4, 1, 1, 2, 1, 1⟩, ⟨1, 4, 1, 1, 3, 1, 1⟩] →
        (price_drops_day1 [⟨1, 2, 1, 1, 1, 1, 1⟩, ⟨1, 4, 1, 1, 2, 1, 1⟩, ⟨1, 4, 1, 1, 3, 1, 1⟩]).getD
            (worst_stock [⟨1, 2, 1, 1, 1, 1, 1⟩, ⟨1, 4, 1, 1, 2, 1, 1⟩, ⟨1, 4, 1, 1, 3, 1, 1⟩]) 0 <
          (price_drops_day1 [⟨1, 2, 1, 1, 1, 1, 1⟩, ⟨1, 4, 1, 1, 2, 1, 1⟩, ⟨1, 4, 1, 1, 3, 1, 1⟩]).getD j 0) ∧
      shifting_sands [⟨1, 2, 1, 1, 1, 1, 1⟩, ⟨1, 4, 1, 1, 2, 1, 1⟩, ⟨1, 4, 1, 1, 3, 1, 1⟩]
          [⟨2, 5, 1, 1, 1, 1, 1⟩, ⟨2, 7, 1, 1, 1, 1, 1⟩, ⟨2, 9, 1, 1, 1, 1, 1⟩] =
        (([⟨2, 5, 1, 1, 1, 1, 1⟩, ⟨2, 7, 1, 1, 1, 1, 1⟩, ⟨2, 9, 1, 1, 1, 1, 1⟩] : List DataRow).getD
            (worst_stock [⟨1, 2, 1, 1, 1, 1, 1⟩, ⟨1, 4, 1, 1, 2, 1, 1⟩, ⟨1, 4, 1, 1, 3, 1, 1⟩]) default).open_ /
          (([⟨1, 2, 1, 1, 1, 1, 1⟩, ⟨1, 4, 1, 1, 2, 1, 1⟩, ⟨1, 4, 1, 1, 3, 1, 1⟩] : List DataRow).getD
            (worst_stock [⟨1, 2, 1, 1, 1, 1, 1⟩, ⟨1, 4, 1, 1, 2, 1, 1⟩, ⟨1, 4, 1, 1, 3, 1, 1⟩]) default).close) :=
  ⟨⟨by decide, by decide⟩,
    shifting_sands_spec _ _ (by decide) (by decide)⟩

/-! ### StrategyEngine (C2, C10) -/

lemma sim_pairs_length (aligned_data : List (List DataRow))
    (f : List DataRow → List DataRow → ℚ) :
    ∀ (ps : List (Nat × Nat)) (v : ℚ), (sim_pairs aligned_data f v ps).length = ps.length := by
  intro ps
  induction ps with
  | nil => intro v; rfl
  | cons p rest ih =>
    intro v
    cases p with
    | mk i1 i2 => simp [sim_pairs, ih]

/-- Each value of the folded curve is the previous value times the strategy
factor of the corresponding index pair. -/
lemma sim_pairs_getD (aligned_data : List (List DataRow))
    (f : List DataRow → List DataRow → ℚ) :
    ∀ (ps : List (Nat × Nat)) (v : ℚ) (k : Nat), k < ps.length →
      (v :: sim_pairs aligned_data f v ps).getD (k + 1) 0 =
        (v :: sim_pairs aligned_data f v ps).getD k 0 *
          f (aligned_data.getD (ps.getD k (0, 0)).1 [])
            (aligned_data.getD (ps.getD k (0, 0)).2 []) := by
  intro ps
  induction ps with
  | nil =>
    intro v k hk
    simp at hk
  | cons p rest ih =>
    intro v k hk
    cases p with
    | mk i1 i2 =>
      cases k with
      | zero => simp [sim_pairs]
      | succ k2 =>
        have hk2 : k2 < rest.length := by simpa using hk
        have := ih (v * f (aligned_data.getD i1 []) (aligned_data.getD i2 [])) k2 hk2
        simpa [sim_pairs] using this

/-- Consecutive entries of `zip window window.tail` are the consecutive
entries of the window. -/
lemma zip_tail_getD (w : List Nat) (k : Nat) (h : k + 1 < w.length) :
    (w.zip w.tail).getD k (0, 0) = (w.getD k 0, w.getD (k + 1) 0) := by
  have hz : k < (w.zip w.tail).length := by
    rw [List.length_zip, List.length_tail]
    omega
  have hk : k < w.length := by omega
  have hkt : k < w.tail.length := by
    rw [List.length_tail]
    omega
  rw [List.getD_eq_getElem _ _ hz, List.getElem_zip, List.getElem_tail,
    List.getD_eq_getElem _ _ hk, List.getD_eq_getElem _ _ h]

/-- C2 (amended): `simulate_strategy` returns one curve per window; each
curve starts at `initial_value` and multiplies by
`strategy (aligned_rows[w k]) (aligned_rows[w (k+1)])` from position `k` to
`k+1`; for a NONEMPTY window the curve length equals the window length (for
an empty window the curve is `[initial_value]`, see C10). -/
theorem simulate_strategy_spec (aligned_data : List (List DataRow))
    (strategy : List DataRow → List DataRow → ℚ) (windows : List (List Nat))
    (initial_value : ℚ) (w : List Nat) (hw : w ∈ windows) (hne : w ≠ []) :
    (simulate_strategy aligned_data strategy windows initial_value).length = windows.length ∧
    simulate_strategy aligned_data strategy windows initial_value =
      windows.map (fun w2 => simulate_window aligned_data strategy w2 initial_value) ∧
    (simulate_window aligned_data strategy w initial_value).headD 0 = initial_value ∧
    (simulate_window aligned_data strategy w initial_value).length = w.length ∧
    ∀ k, k + 1 < w.length →
      (simulate_window aligned_data strategy w initial_value).getD (k + 1) 0 =
        (simulate_window aligned_data strategy w initial_value).getD k 0 *
          strategy (aligned_data.getD (w.getD k 0) [])
            (aligned_data.getD (w.getD (k + 1) 0) []) := by
  refine ⟨by simp [simulate_strategy], rfl, by simp [simulate_window], ?_, ?_⟩
  · obtain ⟨a, t, rfl⟩ := List.exists_cons_of_ne_nil hne
    simp only [simulate_window, List.length_cons, sim_pairs_length, List.length_zip,
      List.length_tail, List.tail_cons]
    omega
  · intro k hk
    have hzlen : k < (w.zip w.tail).length := by
      rw [List.length_zip, List.length_tail]
      omega
    have := sim_pairs_getD aligned_data strategy (w.zip w.tail) initial_value k hzlen
    rw [zip_tail_getD w k hk] at this
    simpa [simulate_window] using this

/-- Witness for C2's amended statement at the spec's §8.7 example: BuyAndHold
over window `[0,1,2]` on highs `10, 11, 12.1` from 100. -/
theorem simulate_strategy_spec_witness :
    (([0, 1, 2] : List Nat) ∈ [([0, 1, 2] : List Nat)] ∧ ([0, 1, 2] : List Nat) ≠ []) ∧
    ((simulate_strategy [[mkRow 1], [mkRow 2], [mkRow 3]] (buy_and_hold_n 0) [[0, 1, 2]] 100).length
        = ([([0, 1, 2] : List Nat)]).length ∧
      simulate_strategy [[mkRow 1], [mkRow 2], [mkRow 3]] (buy_and_hold_n 0) [[0, 1, 2]] 100 =
        ([([0, 1, 2] : List Nat)]).map
          (fun w2 => simulate_window [[mkRow 1], [mkRow 2], [mkRow 3]] (buy_and_hold_n 0) w2 100) ∧
      (simulate_window [[mkRow 1], [mkRow 2], [mkRow 3]] (buy_and_hold_n 0) [0, 1, 2] 100).headD 0
        = 100 ∧
      (simulate_window [[mkRow 1], [mkRow 2], [mkRow 3]] (buy_and_hold_n 0) [0, 1, 2] 100).length
        = ([0, 1, 2] : List Nat).length ∧
      ∀ k, k + 1 < ([0, 1, 2] : List Nat).length →
        (simulate_window [[mkRow 1], [mkRow 2], [mkRow 3]] (buy_and_hold_n 0) [0, 1, 2] 100).getD (k + 1) 0 =
          (simulate_window [[mkRow 1], [mkRow 2], [mkRow 3]] (buy_and_hold_n 0) [0, 1, 2] 100).getD k 0 *
            buy_and_hold_n 0 ([[mkRow 1], [mkRow 2], [mkRow 3]].getD (([0, 1, 2] : List Nat).getD k 0) [])
              ([[mkRow 1], [mkRow 2], [mkRow 3]].getD (([0, 1, 2] : List Nat).getD (k + 1) 0) [])) :=
  ⟨⟨by decide, by decide⟩,
    simulate_strategy_spec [[mkRow 1], [mkRow 2], [mkRow 3]] (buy_and_hold_n 0) [[0, 1, 2]] 100
      [0, 1, 2] (by decide) (by decide)⟩

/-- Counterexample to C2 as stated: for the empty window the curve has length
1, not the window length 0 — curve lengths `[1]` differ from window lengths
`[0]`. -/
theorem simulate_strategy_len_cex :
    ¬ ((simulate_strategy [] (fun _ _ => (1 : ℚ)) [([] : List Nat)] 100).map List.length
        = ([([] : List Nat)]).map List.length) := by
  decide

/-- C10: every curve returned by `simulate_strategy` is nonempty and starts
at `initial_value`; the curve of an empty window is exactly
`[initial_value]`. -/
theorem simulate_strategy_initial (aligned_data : List (List DataRow))
    (strategy : List DataRow → List DataRow → ℚ) (windows : List (List Nat))
    (initial_value : ℚ) :
    (∀ c ∈ simulate_strategy aligned_data strategy windows initial_value,
      c ≠ [] ∧ c.headD 0 = initial_value) ∧
    simulate_strategy aligned_data strategy [([] : List Nat)] initial_value =
      [[initial_value]] := by
  constructor
  · intro c hc
    simp only [simulate_strategy, List.mem_map] at hc
    obtain ⟨w2, _, rfl⟩ := hc
    exact ⟨by simp [simulate_window], by simp [simulate_window]⟩
  · rfl

/-- Witness for C10 at concrete inputs. -/
theorem simulate_strategy_initial_witness :
    (∀ c ∈ simulate_strategy [[mkRow 1], [mkRow 2]] (buy_and_hold_n 0) [[0, 1], []] 7,
      c ≠ [] ∧ c.headD 0 = 7) ∧
    simulate_strategy [[mkRow 1], [mkRow 2]] (buy_and_hold_n 0) [([] : List Nat)] 7 =
      [[7]] :=
  simulate_strategy_initial [[mkRow 1], [mkRow 2]] (buy_and_hold_n 0) [[0, 1], []] 7

/-! ### Extractor (C9) -/

/-- On a recognized field name every lookup succeeds. -/
lemma asdict_isSome_of_recognized (r : DataRow) (f : String) (h : recognizedField f) :
    ∃ v, r.asdict f = some v := by
  simp only [recognizedField, List.mem_cons, List.not_mem_nil, or_false] at h
  rcases h with h | h | h | h | h | h | h <;> subst h <;> exact ⟨_, rfl⟩

/-- On an unrecognized field name the lookup fails (Python's `KeyError`). -/
lemma asdict_eq_none_of_not_recognized (r : DataRow) (f : String)
    (h : ¬ recognizedField f) : r.asdict f = none := by
  unfold DataRow.asdict
  split
  all_goals first
    | rfl
    | (exfalso
       apply h
       simp_all [recognizedField])

/-- Success case of `extract_data`: with recognized field and in-bounds
indices, it returns exactly the field of the record at `dataset_num` of each
windowed aligned row. -/
lemma extract_data_ok (aligned_data : List (List DataRow)) (dataset_num : Nat)
    (field_to_extract : String) (hf : recognizedField field_to_extract) :
    ∀ (w : List Nat), (∀ k ∈ w, k < aligned_data.length) →
      (∀ k ∈ w, dataset_num < (aligned_data.getD k []).length) →
      extract_data aligned_data dataset_num field_to_extract w =
        .ok (w.map (fun k =>
          (((aligned_data.getD k []).getD dataset_num default).asdict field_to_extract).getD
            (.natVal 0))) := by
  intro w
  induction w with
  | nil => intro _ _; rfl
  | cons k rest ih =>
    intro hb hib
    have hk : k < aligned_data.length := hb k (List.mem_cons_self _ _)
    have hik : dataset_num < (aligned_data.getD k []).length := hib k (List.mem_cons_self _ _)
    have h1 : aligned_data[k]? = some (aligned_data.getD k []) := by
      rw [List.getElem?_eq_getElem hk, List.getD_eq_getElem _ _ hk]
    have h2 : (aligned_data.getD k [])[dataset_num]? =
        some ((aligned_data.getD k []).getD dataset_num default) := by
      rw [List.getElem?_eq_getElem hik, List.getD_eq_getElem _ _ hik]
    obtain ⟨v, hv⟩ :=
      asdict_isSome_of_recognized ((aligned_data.getD k []).getD dataset_num default) _ hf
    simp only [extract_data, h1, h2, hv,
      ih (fun x hx => hb x (List.mem_cons_of_mem _ hx))
        (fun x hx => hib x (List.mem_cons_of_mem _ hx)),
      Except.map, List.map_cons]
    rfl

/-- C9 (amended): `extract_data` succeeds with one value per window index
(the requested field of the record at `dataset_num` in each windowed row)
when the field is recognized and all indices are in bounds; on a NONEMPTY
window whose accesses are in bounds, an unrecognized field name fails with
the `FieldNotFoundError` class; with a recognized field name, an
out-of-bounds series index or window index fails with the `IndexError`
class.  (With an empty window the loop body never runs and the result is
`ok []` whatever the field name; at each position the index checks run
before the field lookup.) -/
theorem extract_data_spec (aligned_data : List (List DataRow)) (dataset_num : Nat)
    (field_to_extract : String) (w : List Nat) :
    ((∀ k ∈ w, k < aligned_data.length) →
      (∀ k ∈ w, dataset_num < (aligned_data.getD k []).length) →
      recognizedField field_to_extract →
      extract_data aligned_data dataset_num field_to_extract w =
        .ok (w.map (fun k =>
          (((aligned_data.getD k []).getD dataset_num default).asdict field_to_extract).getD
            (.natVal 0)))) ∧
    (w ≠ [] → (∀ k ∈ w, k < aligned_data.length) →
      (∀ k ∈ w, dataset_num < (aligned_data.getD k []).length) →
      ¬ recognizedField field_to_extract →
      extract_data aligned_data dataset_num field_to_extract w = .error .fieldNotFound) ∧
    (recognizedField field_to_extract →
      (∃ k ∈ w, ¬ (k < aligned_data.length ∧ dataset_num < (aligned_data.getD k []).length)) →
      extract_data aligned_data dataset_num field_to_extract w = .error .indexError) := by
  refine ⟨fun hb hib hf => extract_data_ok _ _ _ hf w hb hib, ?_, ?_⟩
  · intro hne hb hib hf
    obtain ⟨k, rest, rfl⟩ := List.exists_cons_of_ne_nil hne
    have hk : k < aligned_data.length := hb k (List.mem_cons_self _ _)
    have hik : dataset_num < (aligned_data.getD k []).length := hib k (List.mem_cons_self _ _)
    have h1 : aligned_data[k]? = some (aligned_data.getD k []) := by
      rw [List.getElem?_eq_getElem hk, List.getD_eq_getElem _ _ hk]
    have h2 : (aligned_data.getD k [])[dataset_num]? =
        some ((aligned_data.getD k []).getD dataset_num default) := by
      rw [List.getElem?_eq_getElem hik, List.getD_eq_getElem _ _ hik]
    have h3 := asdict_eq_none_of_not_recognized
      ((aligned_data.getD k []).getD dataset_num default) _ hf
    simp only [extract_data, h1, h2, h3]
  · intro hf hbad
    induction w with
    | nil => simp at hbad
    | cons k rest ih =>
      by_cases hk : k < aligned_data.length
      · have h1 : aligned_data[k]? = some (aligned_data.getD k []) := by
          rw [List.getElem?_eq_getElem hk, List.getD_eq_getElem _ _ hk]
        by_cases hik : dataset_num < (aligned_data.getD k []).length
        · have h2 : (aligned_data.getD k [])[dataset_num]? =
              some ((aligned_data.getD k []).getD dataset_num default) := by
            rw [List.getElem?_eq_getElem hik, List.getD_eq_getElem _ _ hik]
          obtain ⟨v, hv⟩ :=
            asdict_isSome_of_recognized
              ((aligned_data.getD k []).getD dataset_num default) _ hf
          have hrest : ∃ k2 ∈ rest,
              ¬ (k2 < aligned_data.length ∧
                dataset_num < (aligned_data.getD k2 []).length) := by
            obtain ⟨k2, hk2, hk2bad⟩ := hbad
            rcases List.mem_cons.mp hk2 with h | h
            · exact absurd ⟨h ▸ hk, h ▸ hik⟩ (h ▸ hk2bad)
            · exact ⟨k2, h, hk2bad⟩
          simp only [extract_data, h1, h2, hv, ih hrest, Except.map]
        · have h2 : (aligned_data.getD k [])[dataset_num]? = none :=
            List.getElem?_eq_none (by omega)
          simp only [extract_data, h1, h2]
      · have h1 : aligned_data[k]? = none := List.getElem?_eq_none (by omega)
        simp only [extract_data, h1]

/-- Witness for C9's amended statement: all three clauses at concrete
inputs. -/
theorem extract_data_spec_witness :
    (((∀ k ∈ ([0, 1] : List Nat), k < ([[mkRow 3], [mkRow 4]] : List (List DataRow)).length) ∧
      (∀ k ∈ ([0, 1] : List Nat), 0 < (([[mkRow 3], [mkRow 4]] : List (List DataRow)).getD k []).length) ∧
      recognizedField "high") ∧
      extract_data [[mkRow 3], [mkRow 4]] 0 "high" [0, 1] =
        .ok (([0, 1] : List Nat).map (fun k =>
          ((([[mkRow 3], [mkRow 4]] : List (List DataRow)).getD k [] |>.getD 0 default).asdict "high").getD
            (.natVal 0)))) ∧
    (¬ recognizedField "bogus" ∧
      extract_data [[mkRow 3], [mkRow 4]] 0 "bogus" [0, 1] = .error .fieldNotFound) ∧
    extract_data [[mkRow 3], [mkRow 4]] 0 "high" [0, 5] = .error .indexError :=
  ⟨⟨⟨by decide, by decide, by decide⟩,
    (extract_data_spec [[mkRow 3], [mkRow 4]] 0 "high" [0, 1]).1
      (by decide) (by decide) (by decide)⟩,
    ⟨by decide,
      (extract_data_spec [[mkRow 3], [mkRow 4]] 0 "bogus" [0, 1]).2.1
        (by decide) (by decide) (by decide) (by decide)⟩,
    (extract_data_spec [[mkRow 3], [mkRow 4]] 0 "high" [0, 5]).2.2
      (by decide) ⟨5, by decide, by decide⟩⟩

/-- Counterexample to C9 as stated: with an unrecognized field but an EMPTY
window `extract_data` succeeds with `ok []` instead of failing with a
`FieldNotFoundError`; and when an unrecognized field meets an out-of-bounds
window index, the failure is the `IndexError` class, not `FieldNotFound`. -/
theorem extract_data_cex :
    extract_data [] 0 "bogus" [] = .ok [] ∧
    ¬ recognizedField "bogus" ∧
    extract_data [] 0 "bogus" [0] = .error .indexError := by
  refine ⟨rfl, by decide, rfl⟩

/-! ### BuyAndHold / Extractor consistency (C3) -/

/-- Telescoping of the BuyAndHold factors along a window: each curve value is
`v * high[k] / high[cur]` where `cur` is the window's first index. -/
lemma sim_pairs_buy_and_hold (aligned_data : List (List DataRow)) (i : Nat)
    (hhigh : ∀ row ∈ aligned_data, ((row.getD i default).high ≠ 0)) :
    ∀ (rest : List Nat) (cur : Nat) (v : ℚ), (∀ k ∈ rest, k < aligned_data.length) →
      sim_pairs aligned_data (buy_and_hold_n i) v ((cur :: rest).zip rest) =
        rest.map (fun k => v * (((aligned_data.getD k []).getD i default).high /
          ((aligned_data.getD cur []).getD i default).high)) := by
  intro rest
  induction rest with
  | nil => intro cur v _; rfl
  | cons k rest2 ih =>
    intro cur v hb
    have hk : k < aligned_data.length := hb k (List.mem_cons_self _ _)
    have hkH : ((aligned_data.getD k []).getD i default).high ≠ 0 := by
      apply hhigh
      rw [List.getD_eq_getElem _ _ hk]
      exact List.getElem_mem hk
    rw [List.zip_cons_cons]
    show (v * buy_and_hold_n i (aligned_data.getD cur []) (aligned_data.getD k [])) ::
        sim_pairs aligned_data (buy_and_hold_n i)
          (v * buy_and_hold_n i (aligned_data.getD cur []) (aligned_data.getD k []))
          ((k :: rest2).zip rest2) = _
    rw [ih k (v * buy_and_hold_n i (aligned_data.getD cur []) (aligned_data.getD k []))
      (fun x hx => hb x (List.mem_cons_of_mem _ hx))]
    rw [List.map_cons]
    unfold buy_and_hold_n
    congr 1
    apply List.map_congr_left
    intro j _
    rw [mul_assoc, div_mul_div_comm,
      mul_comm (((aligned_data.getD k []).getD i default).high)
        (((aligned_data.getD j []).getD i default).high),
      mul_div_mul_right _ _ hkH]

/-- The nonzero-high hypothesis forces the series index into bounds inside
every real row (the default record has `high = 0`). -/
lemma index_lt_of_high_ne_zero (row : List DataRow) (i : Nat)
    (h : (row.getD i default).high ≠ 0) : i < row.length := by
  by_contra hi
  rw [List.getD_eq_default _ _ (by omega)] at h
  exact h rfl

/-- C3 (amended): over exact arithmetic, for a NONEMPTY in-bounds window, all
`high` values of series `i` nonzero and a NONZERO initial value, normalizing
the BuyAndHold(i) equity curve coincides with normalizing the extracted
`high` sequence of series `i` (and that extraction succeeds, yielding the
rational `high` values). -/
theorem buy_and_hold_extract_consistency (aligned_data : List (List DataRow)) (i : Nat)
    (w : List Nat) (initial_value : ℚ) (hw : w ≠ [])
    (hbound : ∀ k ∈ w, k < aligned_data.length)
    (hhigh : ∀ row ∈ aligned_data, ((row.getD i default).high ≠ 0))
    (hinit : initial_value ≠ 0) :
    extract_data aligned_data i "high" w =
      .ok ((w.map (fun k => ((aligned_data.getD k []).getD i default).high)).map
        FieldValue.ratVal) ∧
    normalize_row (simulate_window aligned_data (buy_and_hold_n i) w initial_value) =
      normalize_row (w.map (fun k => ((aligned_data.getD k []).getD i default).high)) := by
  have hib : ∀ k ∈ w, i < (aligned_data.getD k []).length := by
    intro k hk
    apply index_lt_of_high_ne_zero
    apply hhigh
    rw [List.getD_eq_getElem _ _ (hbound k hk)]
    exact List.getElem_mem (hbound k hk)
  constructor
  · rw [extract_data_ok aligned_data i "high" (by decide) w hbound hib]
    rw [List.map_map]
    congr 1
  · obtain ⟨w0, wrest, rfl⟩ := List.exists_cons_of_ne_nil hw
    have hH0 : ((aligned_data.getD w0 []).getD i default).high ≠ 0 := by
      apply hhigh
      rw [List.getD_eq_getElem _ _ (hbound w0 (List.mem_cons_self _ _))]
      exact List.getElem_mem (hbound w0 (List.mem_cons_self _ _))
    have hcurve : simulate_window aligned_data (buy_and_hold_n i) (w0 :: wrest) initial_value =
        initial_value :: wrest.map (fun k =>
          initial_value * (((aligned_data.getD k []).getD i default).high /
            ((aligned_data.getD w0 []).getD i default).high)) := by
      unfold simulate_window
      rw [List.tail_cons]
      rw [sim_pairs_buy_and_hold aligned_data i hhigh wrest w0 initial_value
        (fun x hx => hbound x (List.mem_cons_of_mem _ hx))]
    rw [hcurve]
    unfold normalize_row
    simp only [List.headD_cons, List.map_cons, List.map_map]
    refine List.cons_eq_cons.mpr ⟨?_, ?_⟩
    · rw [sub_self, sub_self, zero_div, zero_div]
    · apply List.map_congr_left
      intro k _
      simp only [Function.comp]
      set H0 := ((aligned_data.getD w0 []).getD i default).high
      set Hk := ((aligned_data.getD k []).getD i default).high
      rw [div_eq_div_iff hinit hH0, sub_mul, mul_assoc, div_mul_cancel₀ _ hH0]
      ring

/-- Witness for C3's amended statement: three aligned one-record rows,
window `[0,1,2]`, initial value 100. -/
theorem buy_and_hold_extract_consistency_witness :
    ((([0, 1, 2] : List Nat) ≠ [] ∧
      (∀ k ∈ ([0, 1, 2] : List Nat),
        k < ([[mkRow 1], [mkRow 2], [mkRow 3]] : List (List DataRow)).length) ∧
      (∀ row ∈ ([[mkRow 1], [mkRow 2], [mkRow 3]] : List (List DataRow)),
        (row.getD 0 default).high ≠ 0) ∧
      (100 : ℚ) ≠ 0) ∧
    (extract_data [[mkRow 1], [mkRow 2], [mkRow 3]] 0 "high" [0, 1, 2] =
      .ok ((([0, 1, 2] : List Nat).map (fun k =>
        ((([[mkRow 1], [mkRow 2], [mkRow 3]] :
          List (List DataRow)).getD k []).getD 0 default).high)).map FieldValue.ratVal) ∧
      normalize_row (simulate_window [[mkRow 1], [mkRow 2], [mkRow 3]]
          (buy_and_hold_n 0) [0, 1, 2] 100) =
        normalize_row (([0, 1, 2] : List Nat).map (fun k =>
          ((([[mkRow 1], [mkRow 2], [mkRow 3]] :
            List (List DataRow)).getD k []).getD 0 default).high)))) :=
  ⟨⟨by decide, by decide, by decide, by decide⟩,
    buy_and_hold_extract_consistency [[mkRow 1], [mkRow 2], [mkRow 3]]
      0 [0, 1, 2] 100 (by decide) (by decide) (by decide) (by decide)⟩

/-- Counterexample to C3 as stated ("every initial value", "every window"):
with initial value 0 the simulated curve is identically zero and its
normalization no longer matches the normalized extracted highs (in Python
this run raises `ZeroDivisionError`; in the total `ℚ` model the two sides
are unequal); and with the empty window the curve still has one value while
the extraction has none. -/
theorem buy_and_hold_extract_cex :
    (normalize_row (simulate_window [[⟨1, 1, 1, 1, 1, 1, 1⟩], [⟨2, 1, 2, 1, 1, 1, 1⟩]]
        (buy_and_hold_n 0) [0, 1] 0) ≠
      normalize_row (([0, 1] : List Nat).map (fun k =>
        ((([[⟨1, 1, 1, 1, 1, 1, 1⟩], [⟨2, 1, 2, 1, 1, 1, 1⟩]] :
          List (List DataRow)).getD k []).getD 0 default).high))) ∧
    (normalize_row (simulate_window [[⟨1, 1, 1, 1, 1, 1, 1⟩], [⟨2, 1, 2, 1, 1, 1, 1⟩]]
        (buy_and_hold_n 0) [] 100) ≠
      normalize_row (([] : List Nat).map (fun k =>
        ((([[⟨1, 1, 1, 1, 1, 1, 1⟩], [⟨2, 1, 2, 1, 1, 1, 1⟩]] :
          List (List DataRow)).getD k []).getD 0 default).high))) := by
  constructor
  · have hL : normalize_row (simulate_window [[⟨1, 1, 1, 1, 1, 1, 1⟩], [⟨2, 1, 2, 1, 1, 1, 1⟩]]
        (buy_and_hold_n 0) [0, 1] 0) = [0, 0] := by
      simp [simulate_window, sim_pairs, normalize_row, div_zero]
    have hR : normalize_row (([0, 1] : List Nat).map (fun k =>
        ((([[⟨1, 1, 1, 1, 1, 1, 1⟩], [⟨2, 1, 2, 1, 1, 1, 1⟩]] :
          List (List DataRow)).getD k []).getD 0 default).high)) = [0, 1] := by
      show normalize_row [(1 : ℚ), 2] = [0, 1]
      unfold normalize_row
      norm_num
    rw [hL, hR]
    intro h
    have := List.cons_eq_cons.mp h
    exact absurd (List.cons_eq_cons.mp this.2).1 (by norm_num)
  · intro h
    have := congrArg List.length h
    simp [normalize_row, simulate_window, sim_pairs] at this

/-! ### Aligner (C1, C4, C5) -/

lemma findMismatch_cons (first_date d : Nat) (rest : List Nat) :
    findMismatch first_date (d :: rest) =
      if d = first_date then (findMismatch first_date rest).map (fun p => (p.1 + 1, p.2))
      else some (0, d) := rfl

/-- The scan of the loop body finds no mismatch exactly when every date
equals the reference date. -/
lemma findMismatch_none_iff (first_date : Nat) :
    ∀ (l : List Nat), findMismatch first_date l = none ↔ ∀ d ∈ l, d = first_date := by
  intro l
  induction l with
  | nil => simp [findMismatch]
  | cons d rest ih =>
    rw [findMismatch_cons]
    by_cases hd : d = first_date
    · rw [if_pos hd, Option.map_eq_none', ih, List.forall_mem_cons]
      simp [hd]
    · rw [if_neg hd]
      simp [hd]

/-- The scan returns the first index whose date differs from the reference,
together with that date. -/
lemma findMismatch_some (first_date : Nat) :
    ∀ (l : List Nat) (i d : Nat), findMismatch first_date l = some (i, d) →
      i < l.length ∧ l.getD i 0 = d ∧ d ≠ first_date ∧
        ∀ j, j < i → l.getD j 0 = first_date := by
  intro l
  induction l with
  | nil =>
    intro i d h
    simp [findMismatch] at h
  | cons e rest ih =>
    intro i d h
    rw [findMismatch_cons] at h
    by_cases he : e = first_date
    · rw [if_pos he, Option.map_eq_some'] at h
      obtain ⟨⟨i2, d2⟩, hrec, heq⟩ := h
      obtain ⟨h1, h2, h3, h4⟩ := ih i2 d2 hrec
      obtain ⟨hi, hd⟩ := Prod.mk.injEq (i2 + 1) d2 i d |>.mp heq
      subst hi
      subst hd
      refine ⟨by simpa using h1, by simpa [List.getD_cons_succ] using h2, h3, ?_⟩
      intro j hj
      cases j with
      | zero => simpa [List.getD_cons_zero] using he
      | succ j2 =>
        rw [List.getD_cons_succ]
        exact h4 j2 (by omega)
    · rw [if_neg he] at h
      obtain ⟨hi, hd⟩ := Prod.mk.injEq 0 e i d |>.mp (Option.some.injEq _ _ |>.mp h)
      subst hi
      subst hd
      exact ⟨by simp, rfl, he, fun j hj => absurd hj (by omega)⟩

/-- Remaining suffix of each dataset, given the cursor positions. -/
def suffixes (dss : List (List DataRow)) (pos : List Nat) : List (List DataRow) :=
  List.zipWith (fun ds p => ds.drop p) dss pos

lemma getD_eq_headD_drop (l : List DataRow) :
    ∀ (p : Nat), l.getD p default = (l.drop p).headD default := by
  induction l with
  | nil => intro p; cases p <;> rfl
  | cons a t ih =>
    intro p
    cases p with
    | zero => rfl
    | succ p2 =>
      rw [List.getD_cons_succ, List.drop_succ_cons]
      exact ih p2

/-- The loop's end-of-data guard, read on the suffix state. -/
lemma guard_eq : ∀ (dss : List (List DataRow)) (pos : List Nat), pos.length = dss.length →
    ((pos.zip (dss.map List.length)).any fun pl => pl.2 ≤ pl.1) =
      ((suffixes dss pos).any List.isEmpty) := by
  intro dss
  induction dss with
  | nil =>
    intro pos h
    rw [List.length_eq_zero.mp h]
    rfl
  | cons ds rest ih =>
    intro pos h
    cases pos with
    | nil => simp at h
    | cons p pr =>
      rw [show suffixes (ds :: rest) (p :: pr) = ds.drop p :: suffixes rest pr from rfl]
      simp only [List.map_cons, List.zip_cons_cons, List.any_cons]
      rw [← ih pr (by simpa using h)]
      congr 1
      rw [Bool.eq_iff_iff]
      simp [List.isEmpty_iff, List.drop_eq_nil_iff]

/-- The loop's row read, on the suffix state. -/
lemma datarows_eq : ∀ (dss : List (List DataRow)) (pos : List Nat),
    (dss.zip pos).map (fun dp => dp.1.getD dp.2 default) =
      (suffixes dss pos).map (fun ds => ds.headD default) := by
  intro dss
  induction dss with
  | nil => intro pos; cases pos <;> rfl
  | cons ds rest ih =>
    intro pos
    cases pos with
    | nil => rfl
    | cons p pr =>
      simp only [List.zip_cons_cons, List.map_cons, suffixes, List.zipWith_cons_cons]
      rw [show List.zipWith (fun ds p => List.drop p ds) rest pr = suffixes rest pr from rfl,
        ← ih pr, getD_eq_headD_drop]

/-- Advancing cursor `i` advances the `i`-th suffix. -/
lemma suffixes_bumpAt : ∀ (dss : List (List DataRow)) (pos : List Nat) (i : Nat),
    suffixes dss (bumpAt pos i) = tailAt i (suffixes dss pos) := by
  intro dss
  induction dss with
  | nil =>
    intro pos i
    cases i <;> rfl
  | cons ds rest ih =>
    intro pos i
    cases pos with
    | nil => cases i <;> rfl
    | cons p pr =>
      cases i with
      | zero =>
        simp only [bumpAt, suffixes, List.zipWith_cons_cons, tailAt, List.tail_drop]
      | succ i2 =>
        simp only [bumpAt, suffixes, List.zipWith_cons_cons, tailAt]
        rw [show List.zipWith (fun ds p => List.drop p ds) rest (bumpAt pr i2) =
          suffixes rest (bumpAt pr i2) from rfl, ih pr i2]
        rfl

/-- Advancing every cursor takes the tail of every suffix. -/
lemma suffixes_map_succ : ∀ (dss : List (List DataRow)) (pos : List Nat),
    suffixes dss (pos.map (· + 1)) = (suffixes dss pos).map List.tail := by
  intro dss
  induction dss with
  | nil => intro pos; rfl
  | cons ds rest ih =>
    intro pos
    cases pos with
    | nil => rfl
    | cons p pr =>
      simp only [List.map_cons, suffixes, List.zipWith_cons_cons]
      rw [show List.zipWith (fun ds p => List.drop p ds) rest (pr.map (· + 1)) =
        suffixes rest (pr.map (· + 1)) from rfl, ih pr, ← List.tail_drop]
      rfl

/-- With all cursors at 0 the suffixes are the datasets themselves. -/
lemma suffixes_replicate_zero : ∀ (dss : List (List DataRow)),
    suffixes dss (List.replicate dss.length 0) = dss := by
  intro dss
  induction dss with
  | nil => rfl
  | cons ds rest ih =>
    simp only [List.length_cons, List.replicate_succ, suffixes, List.zipWith_cons_cons,
      List.drop_zero]
    rw [show List.zipWith (fun ds p => List.drop p ds) rest (List.replicate rest.length 0) =
      suffixes rest (List.replicate rest.length 0) from rfl, ih]

lemma bumpAt_length : ∀ (pos : List Nat) (i : Nat), (bumpAt pos i).length = pos.length := by
  intro pos
  induction pos with
  | nil => intro i; rfl
  | cons p pr ih =>
    intro i
    cases i with
    | zero => rfl
    | succ i2 => simp [bumpAt, ih i2]

/-- The positions-based loop equals the suffix-based loop. -/
lemma align_data_loop_eq_steps : ∀ (fuel : Nat) (dss : List (List DataRow)) (pos : List Nat),
    pos.length = dss.length →
    align_data_loop dss pos fuel = align_steps fuel (suffixes dss pos) := by
  intro fuel
  induction fuel with
  | zero => intros; rfl
  | succ n ih =>
    intro dss pos hlen
    unfold align_data_loop align_steps
    rw [guard_eq dss pos hlen]
    by_cases hguard : ((suffixes dss pos).any List.isEmpty) = true
    · rw [if_pos hguard, if_pos hguard]
    · rw [if_neg hguard, if_neg hguard]
      rw [datarows_eq dss pos]
      dsimp only
      cases hdates : ((suffixes dss pos).map (fun ds => ds.headD default)).map DataRow.date with
      | nil => rfl
      | cons first_date rest =>
        dsimp only
        cases hfm : findMismatch first_date (first_date :: rest) with
        | some id =>
          dsimp only
          by_cases hlt : id.2 < first_date
          · rw [if_pos hlt, if_pos hlt, ih dss (bumpAt pos id.1) (by rw [bumpAt_length]; exact hlen),
              suffixes_bumpAt]
          · rw [if_neg hlt, if_neg hlt, ih dss (bumpAt pos 0) (by rw [bumpAt_length]; exact hlen),
              suffixes_bumpAt]
        | none =>
          dsimp only
          rw [ih dss (pos.map (· + 1)) (by rw [List.length_map]; exact hlen), suffixes_map_succ]

lemma tailAt_length : ∀ (i : Nat) (dss : List (List DataRow)),
    (tailAt i dss).length = dss.length := by
  intro i
  induction i with
  | zero => intro dss; cases dss <;> rfl
  | succ i2 ih =>
    intro dss
    cases dss with
    | nil => rfl
    | cons ds rest => simp [tailAt, ih rest]

lemma totalRows_tailAt_lt : ∀ (i : Nat) (dss : List (List DataRow)), i < dss.length →
    (∀ ds ∈ dss, ds ≠ []) → totalRows (tailAt i dss) < totalRows dss := by
  intro i
  induction i with
  | zero =>
    intro dss hi hne
    cases dss with
    | nil => simp at hi
    | cons ds rest =>
      have : ds.tail.length < ds.length := by
        have := hne ds (List.mem_cons_self _ _)
        rw [List.length_tail]
        cases ds with
        | nil => exact absurd rfl this
        | cons a t => simp
      simp only [tailAt, totalRows, List.map_cons, List.sum_cons]
      omega
  | succ i2 ih =>
    intro dss hi hne
    cases dss with
    | nil => simp at hi
    | cons ds rest =>
      have := ih rest (by simpa using hi) (fun x hx => hne x (List.mem_cons_of_mem _ hx))
      simp only [tailAt, totalRows, List.map_cons, List.sum_cons]
      simp only [totalRows] at this
      omega

lemma totalRows_map_tail_le : ∀ (dss : List (List DataRow)),
    totalRows (dss.map List.tail) ≤ totalRows dss := by
  intro dss
  induction dss with
  | nil => exact le_refl _
  | cons ds rest ih =>
    simp only [List.map_cons, totalRows, List.sum_cons] at ih ⊢
    have : ds.tail.length ≤ ds.length := by
      rw [List.length_tail]
      omega
    omega

lemma totalRows_map_tail_lt (dss : List (List DataRow)) (hne : dss ≠ [])
    (hall : ∀ ds ∈ dss, ds ≠ []) : totalRows (dss.map List.tail) < totalRows dss := by
  obtain ⟨ds, rest, rfl⟩ := List.exists_cons_of_ne_nil hne
  have h1 : ds.tail.length < ds.length := by
    have := hall ds (List.mem_cons_self _ _)
    rw [List.length_tail]
    cases ds with
    | nil => exact absurd rfl this
    | cons a t => simp
  have h2 := totalRows_map_tail_le rest
  simp only [List.map_cons, totalRows, List.sum_cons] at h2 ⊢
  omega

lemma not_isEmpty_forall (dss : List (List DataRow))
    (h : (dss.any List.isEmpty) = false) : ∀ ds ∈ dss, ds ≠ [] := by
  intro ds hds hnil
  have : dss.any List.isEmpty = true :=
    List.any_eq_true.mpr ⟨ds, hds, by rw [hnil]; rfl⟩
  rw [this] at h
  exact absurd h (by simp)

lemma tailAt_ne_nil (i : Nat) (dss : List (List DataRow)) (hne : dss ≠ []) :
    tailAt i dss ≠ [] := by
  intro h
  have := tailAt_length i dss
  rw [h] at this
  exact hne (List.length_eq_zero.mp this.symm)

/-- Termination engine: with fuel exceeding the total number of remaining
rows, the loop finishes (every iteration either breaks or drops one row from
some suffix). -/
lemma align_steps_total : ∀ (fuel : Nat) (dss : List (List DataRow)), dss ≠ [] →
    totalRows dss < fuel → ∃ out, align_steps fuel dss = some out := by
  intro fuel
  induction fuel with
  | zero =>
    intro dss _ h
    exact absurd h (Nat.not_lt_zero _)
  | succ n ih =>
    intro dss hne hfuel
    unfold align_steps
    by_cases hguard : (dss.any List.isEmpty) = true
    · exact ⟨[], by rw [if_pos hguard]⟩
    · rw [if_neg hguard]
      have hall := not_isEmpty_forall dss (Bool.not_eq_true _ |>.mp hguard)
      obtain ⟨ds0, rest, rfl⟩ := List.exists_cons_of_ne_nil hne
      obtain ⟨r0, t0, hds0⟩ := List.exists_cons_of_ne_nil (hall _ (List.mem_cons_self _ _))
      subst hds0
      dsimp only [List.map_cons, List.headD_cons]
      cases hfm : findMismatch r0.date (r0.date ::
          (rest.map (fun ds => ds.headD default)).map DataRow.date) with
      | some id =>
        obtain ⟨hi, hgd, hne2, hfst⟩ := findMismatch_some _ _ id.1 id.2 hfm
        have hilen : id.1 < ((r0 :: t0) :: rest).length := by
          simpa using hi
        dsimp only
        by_cases hlt : id.2 < r0.date
        · rw [if_pos hlt]
          exact ih (tailAt id.1 ((r0 :: t0) :: rest))
            (tailAt_ne_nil _ _ (by simp))
            (by
              have := totalRows_tailAt_lt id.1 ((r0 :: t0) :: rest) hilen hall
              omega)
        · rw [if_neg hlt]
          exact ih (tailAt 0 ((r0 :: t0) :: rest))
            (tailAt_ne_nil _ _ (by simp))
            (by
              have := totalRows_tailAt_lt 0 ((r0 :: t0) :: rest) (by simp) hall
              omega)
      | none =>
        dsimp only
        obtain ⟨out, hout⟩ := ih (((r0 :: t0) :: rest).map List.tail)
          (by simp)
          (by
            have := totalRows_map_tail_lt ((r0 :: t0) :: rest) (by simp) hall
            omega)
        rw [List.map_cons] at hout
        refine ⟨(r0 :: rest.map (fun ds => ds.headD default)) :: out, ?_⟩
        rw [hout]
        rfl

/-- An exhausted series kills the common-date list. -/
lemma commonList_of_any_isEmpty (dss : List (List DataRow))
    (h : (dss.any List.isEmpty) = true) : commonList dss = [] := by
  obtain ⟨ds, hds, hempty⟩ := List.any_eq_true.mp h
  have hdsnil : ds = [] := List.isEmpty_iff.mp hempty
  apply List.filter_eq_nil_iff.mpr
  intro a _
  simp only [List.all_eq_true, decide_eq_true_eq]
  intro hallmem
  have := hallmem ds hds
  rw [hdsnil] at this
  simp [datesOf] at this

lemma list_all_congr {α : Type} (l : List α) (p q : α → Bool)
    (h : ∀ x ∈ l, p x = q x) : l.all p = l.all q := by
  induction l with
  | nil => rfl
  | cons a t ih =>
    simp only [List.all_cons]
    rw [h a (List.mem_cons_self _ _), ih (fun x hx => h x (List.mem_cons_of_mem _ hx))]

/-- Dropping the head of the `i`-th series does not change membership tests
for a date different from that head's date. -/
lemma all_contains_tailAt (x : Nat) : ∀ (i : Nat) (dss : List (List DataRow)),
    x ≠ ((dss.getD i []).headD default).date →
    (tailAt i dss).all (fun ds => decide (x ∈ datesOf ds)) =
      dss.all (fun ds => decide (x ∈ datesOf ds)) := by
  intro i
  induction i with
  | zero =>
    intro dss hx
    cases dss with
    | nil => rfl
    | cons ds rest =>
      cases ds with
      | nil => rfl
      | cons r t =>
        simp only [tailAt, List.tail_cons, List.all_cons]
        congr 1
        rw [Bool.eq_iff_iff]
        simp only [decide_eq_true_eq, datesOf, List.map_cons, List.mem_cons]
        constructor
        · intro h
          exact Or.inr h
        · rintro (h | h)
          · exact absurd h hx
          · exact h
  | succ i2 ih =>
    intro dss hx
    cases dss with
    | nil => rfl
    | cons ds rest =>
      simp only [tailAt, List.all_cons]
      rw [ih rest hx]

/-- A date below the head of a strictly sorted series does not occur in it. -/
lemma not_mem_datesOf_of_lt_head (ds : List DataRow)
    (hsorted : (datesOf ds).Pairwise (· < ·)) (x : Nat)
    (hx : x < (ds.headD default).date) : x ∉ datesOf ds := by
  cases ds with
  | nil => simp [datesOf]
  | cons r t =>
    simp only [List.headD_cons] at hx
    rw [show datesOf (r :: t) = r.date :: datesOf t from rfl]
    simp only [List.mem_cons]
    rintro (h | h)
    · omega
    · have := (List.pairwise_cons.mp hsorted).1 _ h
      omega

/-- Advancing a lagging cursor `i ≠ 0` whose head date is outside the first
series' remaining dates leaves the common-date list unchanged. -/
lemma commonList_tailAt_ne0 (dss : List (List DataRow)) (i : Nat) (hi0 : i ≠ 0)
    (hdom : ∀ x ∈ datesOf (dss.headD []), x ≠ ((dss.getD i []).headD default).date) :
    commonList (tailAt i dss) = commonList dss := by
  cases dss with
  | nil => cases i <;> rfl
  | cons ds0 rest =>
    cases i with
    | zero => exact absurd rfl hi0
    | succ i2 =>
      show List.filter (fun d => (ds0 :: tailAt i2 rest).all
          (fun ds => decide (d ∈ datesOf ds))) (datesOf ds0) =
        List.filter (fun d => (ds0 :: rest).all
          (fun ds => decide (d ∈ datesOf ds))) (datesOf ds0)
      apply List.filter_congr
      intro x hx
      exact all_contains_tailAt x (i2 + 1) (ds0 :: rest) (hdom x hx)

/-- Advancing cursor 0 when its current date is missing from some series
leaves the common-date list unchanged. -/
lemma commonList_tailAt_zero (r0 : DataRow) (t0 : List DataRow)
    (rest : List (List DataRow))
    (habsent : ∃ ds ∈ (r0 :: t0) :: rest, r0.date ∉ datesOf ds) :
    commonList (tailAt 0 ((r0 :: t0) :: rest)) = commonList ((r0 :: t0) :: rest) := by
  show commonList (t0 :: rest) = commonList ((r0 :: t0) :: rest)
  unfold commonList
  rw [show datesOf (((r0 :: t0) :: rest).headD []) = r0.date :: datesOf t0 from rfl,
    List.filter_cons, if_neg ?hP]
  case hP =>
    simp only [List.all_eq_true, decide_eq_true_eq]
    intro hallmem
    obtain ⟨ds, hds, hnot⟩ := habsent
    exact hnot (hallmem ds hds)
  rw [show datesOf ((t0 :: rest).headD []) = datesOf t0 from rfl]
  apply List.filter_congr
  intro x hx
  simp only [List.all_cons]
  congr 1
  rw [Bool.eq_iff_iff]
  simp only [decide_eq_true_eq]
  rw [show datesOf (r0 :: t0) = r0.date :: datesOf t0 from rfl]
  simp only [List.mem_cons]
  constructor
  · intro h
    exact Or.inr h
  · intro _
    exact hx

/-- On a synchronized state (all heads share the reference date) emitting the
heads and advancing all cursors peels exactly that date off the common-date
list. -/
lemma commonList_emit (r0 : DataRow) (t0 : List DataRow) (rest : List (List DataRow))
    (hheads : ∀ ds ∈ (r0 :: t0) :: rest, ((ds.headD default).date) = r0.date)
    (hall : ∀ ds ∈ (r0 :: t0) :: rest, ds ≠ [])
    (hsorted0 : (datesOf (r0 :: t0)).Pairwise (· < ·)) :
    commonList ((r0 :: t0) :: rest) =
      r0.date :: commonList (((r0 :: t0) :: rest).map List.tail) := by
  unfold commonList
  rw [show datesOf (((r0 :: t0) :: rest).headD []) = r0.date :: datesOf t0 from rfl,
    List.filter_cons, if_pos ?hP]
  case hP =>
    simp only [List.all_eq_true, decide_eq_true_eq]
    intro ds hds
    obtain ⟨h, t, hht⟩ := List.exists_cons_of_ne_nil (hall ds hds)
    have hd := hheads ds hds
    rw [hht] at hd ⊢
    rw [show datesOf (h :: t) = h.date :: datesOf t from rfl]
    simp only [List.headD_cons] at hd
    exact List.mem_cons.mpr (Or.inl hd.symm)
  congr 1
  rw [show datesOf (((((r0 :: t0) :: rest).map List.tail)).headD []) = datesOf t0 from rfl]
  apply List.filter_congr
  intro x hx
  have hxne : x ≠ r0.date := by
    have := (List.pairwise_cons.mp hsorted0).1 x hx
    omega
  rw [List.all_map]
  apply list_all_congr
  intro ds hds
  obtain ⟨h, t, hht⟩ := List.exists_cons_of_ne_nil (hall ds hds)
  have hd := hheads ds hds
  subst hht
  simp only [List.headD_cons] at hd
  show decide (x ∈ datesOf (h :: t)) = decide (x ∈ datesOf t)
  rw [Bool.eq_iff_iff]
  simp only [decide_eq_true_eq]
  rw [show datesOf (h :: t) = h.date :: datesOf t from rfl]
  simp only [List.mem_cons]
  constructor
  · rintro (h1 | h1)
    · exact absurd (h1.trans hd) hxne
    · exact h1
  · intro h1
    exact Or.inr h1

/-- The scanned date at position `i` is the head date of the `i`-th suffix. -/
lemma headD_date_getD (dss : List (List DataRow)) (i : Nat) (hi : i < dss.length) :
    ((dss.map (fun ds => ds.headD default)).map DataRow.date).getD i 0 =
      ((dss.getD i []).headD default).date := by
  have h1 : i < ((dss.map (fun ds => ds.headD default)).map DataRow.date).length := by
    simpa using hi
  rw [List.getD_eq_getElem _ _ h1, List.getElem_map, List.getElem_map,
    List.getD_eq_getElem _ _ hi]

lemma datesOf_tail (ds : List DataRow) : datesOf ds.tail = (datesOf ds).tail := by
  cases ds <;> rfl

lemma pairwise_lt_tail {l : List Nat} (h : l.Pairwise (· < ·)) :
    l.tail.Pairwise (· < ·) := by
  cases l with
  | nil => exact h
  | cons a t => exact (List.pairwise_cons.mp h).2

lemma mem_tailAt : ∀ (i : Nat) (dss : List (List DataRow)) (ds : List DataRow),
    ds ∈ tailAt i dss → ds ∈ dss ∨ ∃ ds2 ∈ dss, ds = ds2.tail := by
  intro i
  induction i with
  | zero =>
    intro dss ds h
    cases dss with
    | nil => simp [tailAt] at h
    | cons d0 rest =>
      rcases List.mem_cons.mp h with h1 | h1
      · exact Or.inr ⟨d0, List.mem_cons_self _ _, h1⟩
      · exact Or.inl (List.mem_cons_of_mem _ h1)
  | succ i2 ih =>
    intro dss ds h
    cases dss with
    | nil => simp [tailAt] at h
    | cons d0 rest =>
      rcases List.mem_cons.mp h with h1 | h1
      · exact Or.inl (h1 ▸ List.mem_cons_self _ _)
      · rcases ih rest ds h1 with h2 | ⟨ds2, hds2, heq⟩
        · exact Or.inl (List.mem_cons_of_mem _ h2)
        · exact Or.inr ⟨ds2, List.mem_cons_of_mem _ hds2, heq⟩

lemma sorted_tailAt (i : Nat) (dss : List (List DataRow))
    (hsorted : ∀ ds ∈ dss, (datesOf ds).Pairwise (· < ·)) :
    ∀ ds ∈ tailAt i dss, (datesOf ds).Pairwise (· < ·) := by
  intro ds hds
  rcases mem_tailAt i dss ds hds with h | ⟨ds2, hds2, heq⟩
  · exact hsorted ds h
  · rw [heq, datesOf_tail]
    exact pairwise_lt_tail (hsorted ds2 hds2)

/-- Master invariant of the alignment loop: with enough fuel it returns the
rows whose head dates are exactly the dates common to all remaining
suffixes, each emitted row holding one record per series, all with one
date. -/
lemma align_steps_spec : ∀ (fuel : Nat) (dss : List (List DataRow)), dss ≠ [] →
    (∀ ds ∈ dss, (datesOf ds).Pairwise (· < ·)) →
    totalRows dss < fuel →
    ∃ out, align_steps fuel dss = some out ∧
      out.map (fun row => (row.headD default).date) = commonList dss ∧
      ∀ row ∈ out, row.length = dss.length ∧
        ∀ r ∈ row, r.date = (row.headD default).date := by
  intro fuel
  induction fuel with
  | zero =>
    intro dss _ _ h
    exact absurd h (Nat.not_lt_zero _)
  | succ n ih =>
    intro dss hne hsorted hfuel
    by_cases hguard : (dss.any List.isEmpty) = true
    · refine ⟨[], ?_, ?_, by simp⟩
      · unfold align_steps
        rw [if_pos hguard]
      · rw [commonList_of_any_isEmpty dss hguard]
        rfl
    · have hall := not_isEmpty_forall dss (Bool.not_eq_true _ |>.mp hguard)
      obtain ⟨ds0, rest, rfl⟩ := List.exists_cons_of_ne_nil hne
      obtain ⟨r0, t0, hds0⟩ := List.exists_cons_of_ne_nil (hall _ (List.mem_cons_self _ _))
      subst hds0
      unfold align_steps
      rw [if_neg hguard]
      dsimp only [List.map_cons, List.headD_cons]
      cases hfm : findMismatch r0.date (r0.date ::
          (rest.map (fun ds => ds.headD default)).map DataRow.date) with
      | some id =>
        dsimp only
        obtain ⟨hi, hgd, hdne, hfst⟩ := findMismatch_some _ _ id.1 id.2 hfm
        have hi0 : id.1 ≠ 0 := by
          intro h0
          rw [h0] at hgd
          exact hdne (by simpa using hgd.symm)
        have hilen : id.1 < ((r0 :: t0) :: rest).length := by
          simpa using hi
        have hdate_i : ((((r0 :: t0) :: rest).getD id.1 []).headD default).date = id.2 :=
          (headD_date_getD ((r0 :: t0) :: rest) id.1 hilen).symm.trans hgd
        by_cases hlt : id.2 < r0.date
        · rw [if_pos hlt]
          obtain ⟨out, hout, hdates, hrows⟩ := ih (tailAt id.1 ((r0 :: t0) :: rest))
            (tailAt_ne_nil _ _ (by simp))
            (sorted_tailAt _ _ hsorted)
            (by
              have := totalRows_tailAt_lt id.1 _ hilen hall
              omega)
          refine ⟨out, hout, ?_, ?_⟩
          · have hdom : ∀ x ∈ datesOf ((((r0 :: t0) :: rest)).headD []),
                x ≠ ((((r0 :: t0) :: rest).getD id.1 []).headD default).date := by
              intro x hx
              rw [hdate_i]
              have hs0 := hsorted _ (List.mem_cons_self _ _)
              rw [show datesOf ((((r0 :: t0) :: rest)).headD []) = r0.date :: datesOf t0
                from rfl] at hx
              rcases List.mem_cons.mp hx with h | h
              · omega
              · have := (List.pairwise_cons.mp hs0).1 x h
                omega
            rw [← commonList_tailAt_ne0 ((r0 :: t0) :: rest) id.1 hi0 hdom]
            exact hdates
          · intro row hrow
            obtain ⟨hL, hD⟩ := hrows row hrow
            exact ⟨by rw [hL, tailAt_length], hD⟩
        · rw [if_neg hlt]
          have hgt : r0.date < id.2 := by omega
          obtain ⟨out, hout, hdates, hrows⟩ := ih (tailAt 0 ((r0 :: t0) :: rest))
            (tailAt_ne_nil _ _ (by simp))
            (sorted_tailAt _ _ hsorted)
            (by
              have := totalRows_tailAt_lt 0 _ (by simp) hall
              omega)
          refine ⟨out, hout, ?_, ?_⟩
          · have hmemi : (((r0 :: t0) :: rest)).getD id.1 [] ∈ (r0 :: t0) :: rest := by
              rw [List.getD_eq_getElem _ _ hilen]
              exact List.getElem_mem hilen
            have habsent : ∃ ds ∈ (r0 :: t0) :: rest, r0.date ∉ datesOf ds := by
              refine ⟨(((r0 :: t0) :: rest)).getD id.1 [], hmemi, ?_⟩
              apply not_mem_datesOf_of_lt_head _ (hsorted _ hmemi)
              rw [hdate_i]
              exact hgt
            rw [← commonList_tailAt_zero r0 t0 rest habsent]
            exact hdates
          · intro row hrow
            obtain ⟨hL, hD⟩ := hrows row hrow
            exact ⟨by rw [hL, tailAt_length], hD⟩
      | none =>
        dsimp only
        have halldates := (findMismatch_none_iff _ _).mp hfm
        have hheads : ∀ ds ∈ (r0 :: t0) :: rest, ((ds.headD default).date) = r0.date := by
          intro ds hds
          rcases List.mem_cons.mp hds with h | h
          · rw [h]
            rfl
          · apply halldates
            refine List.mem_cons_of_mem _ ?_
            simp only [List.mem_map]
            exact ⟨ds.headD default, ⟨ds, h, rfl⟩, rfl⟩
        have hsorted' : ∀ ds ∈ ((r0 :: t0) :: rest).map List.tail,
            (datesOf ds).Pairwise (· < ·) := by
          intro ds hds
          simp only [List.mem_map] at hds
          obtain ⟨ds2, hds2, rfl⟩ := hds
          rw [datesOf_tail]
          exact pairwise_lt_tail (hsorted ds2 hds2)
        obtain ⟨out, hout, hdates, hrows⟩ := ih (((r0 :: t0) :: rest).map List.tail)
          (by simp) hsorted'
          (by
            have := totalRows_map_tail_lt ((r0 :: t0) :: rest) (by simp) hall
            omega)
        refine ⟨(r0 :: rest.map (fun ds => ds.headD default)) :: out, ?_, ?_, ?_⟩
        · rw [List.map_cons] at hout
          rw [hout]
          rfl
        · rw [List.map_cons]
          rw [show (((r0 :: rest.map (fun ds => ds.headD default)) :
            List DataRow).headD default).date = r0.date from rfl]
          rw [hdates, commonList_emit r0 t0 rest hheads hall
            (hsorted _ (List.mem_cons_self _ _))]
        · intro row hrow
          rcases List.mem_cons.mp hrow with h | h
          · subst h
            refine ⟨by simp, ?_⟩
            intro r hr
            rw [show ((r0 :: rest.map (fun ds => ds.headD default)).headD default).date =
              r0.date from rfl]
            rcases List.mem_cons.mp hr with h1 | h1
            · rw [h1]
            · simp only [List.mem_map] at h1
              obtain ⟨ds, hds, rfl⟩ := h1
              exact hheads ds (List.mem_cons_of_mem _ hds)
          · obtain ⟨hL, hD⟩ := hrows row h
            refine ⟨?_, hD⟩
            rw [hL]
            simp

lemma align_data_eq_steps (all_datasets : List (List DataRow)) :
    align_data all_datasets = align_steps (totalRows all_datasets + 1) all_datasets := by
  unfold align_data
  rw [align_data_loop_eq_steps _ _ _ (List.length_replicate _ _), suffixes_replicate_zero]

/-- C1: for a nonempty family of series with strictly increasing dates,
`align_data` finishes and every emitted row holds exactly N records sharing
one date, the emitted head-date sequence being strictly increasing (hence
duplicate-free). -/
theorem align_data_invariant (all_datasets : List (List DataRow))
    (hne : all_datasets ≠ [])
    (hsorted : ∀ ds ∈ all_datasets, (datesOf ds).Pairwise (· < ·)) :
    ∃ out, align_data all_datasets = some out ∧
      (∀ row ∈ out, row.length = all_datasets.length ∧
        ∀ r1 ∈ row, ∀ r2 ∈ row, r1.date = r2.date) ∧
      (out.map (fun row => (row.headD default).date)).Pairwise (· < ·) := by
  rw [align_data_eq_steps]
  obtain ⟨out, hout, hdates, hrows⟩ :=
    align_steps_spec (totalRows all_datasets + 1) all_datasets hne hsorted
      (Nat.lt_succ_self _)
  refine ⟨out, hout, ?_, ?_⟩
  · intro row hrow
    obtain ⟨hL, hD⟩ := hrows row hrow
    refine ⟨hL, ?_⟩
    intro r1 hr1 r2 hr2
    rw [hD r1 hr1, hD r2 hr2]
  · rw [hdates]
    obtain ⟨ds0, rest, rfl⟩ := List.exists_cons_of_ne_nil hne
    exact List.Pairwise.sublist (List.filter_sublist _)
      (hsorted ds0 (List.mem_cons_self _ _))

/-- Witness for C1 at the spec's §8.7 scenario (series B missing date 3). -/
theorem align_data_invariant_witness :
    (([[mkRow 1, mkRow 2, mkRow 3, mkRow 4, mkRow 5],
        [mkRow 1, mkRow 2, mkRow 4, mkRow 5],
        [mkRow 1, mkRow 2, mkRow 3, mkRow 4, mkRow 5]] : List (List DataRow)) ≠ [] ∧
      (∀ ds ∈ ([[mkRow 1, mkRow 2, mkRow 3, mkRow 4, mkRow 5],
        [mkRow 1, mkRow 2, mkRow 4, mkRow 5],
        [mkRow 1, mkRow 2, mkRow 3, mkRow 4, mkRow 5]] : List (List DataRow)),
        (datesOf ds).Pairwise (· < ·))) ∧
    (∃ out, align_data [[mkRow 1, mkRow 2, mkRow 3, mkRow 4, mkRow 5],
        [mkRow 1, mkRow 2, mkRow 4, mkRow 5],
        [mkRow 1, mkRow 2, mkRow 3, mkRow 4, mkRow 5]] = some out ∧
      (∀ row ∈ out, row.length = ([[mkRow 1, mkRow 2, mkRow 3, mkRow 4, mkRow 5],
        [mkRow 1, mkRow 2, mkRow 4, mkRow 5],
        [mkRow 1, mkRow 2, mkRow 3, mkRow 4, mkRow 5]] : List (List DataRow)).length ∧
        ∀ r1 ∈ row, ∀ r2 ∈ row, r1.date = r2.date) ∧
      (out.map (fun row => (row.headD default).date)).Pairwise (· < ·)) :=
  ⟨⟨by decide, by decide⟩,
    align_data_invariant _ (by decide) (by decide)⟩

lemma mem_foldl_inter (x : Nat) : ∀ (rest : List (List DataRow)) (acc : Finset Nat),
    (x ∈ rest.foldl (fun a ds => a ∩ dateSet ds) acc) ↔
      x ∈ acc ∧ ∀ ds ∈ rest, x ∈ dateSet ds := by
  intro rest
  induction rest with
  | nil => intro acc; simp
  | cons ds rest2 ih =>
    intro acc
    rw [List.foldl_cons, ih (acc ∩ dateSet ds)]
    simp only [Finset.mem_inter, List.forall_mem_cons]
    tauto

lemma mem_commonDateSet (ds0 : List DataRow) (rest : List (List DataRow)) (x : Nat) :
    x ∈ commonDateSet (ds0 :: rest) ↔
      x ∈ datesOf ds0 ∧ ∀ ds ∈ ds0 :: rest, x ∈ datesOf ds := by
  show x ∈ rest.foldl (fun a ds => a ∩ dateSet ds) (dateSet ds0) ↔ _
  rw [mem_foldl_inter]
  simp only [dateSet, List.mem_toFinset, List.forall_mem_cons]
  tauto

/-- The common-date list enumerates the intersection of the date sets without
duplicates. -/
lemma commonList_length_eq_card (ds0 : List DataRow) (rest : List (List DataRow))
    (hs0 : (datesOf ds0).Pairwise (· < ·)) :
    (commonList (ds0 :: rest)).length = (commonDateSet (ds0 :: rest)).card := by
  have hnodup : (commonList (ds0 :: rest)).Nodup := by
    apply List.Nodup.sublist (List.filter_sublist _)
    exact hs0.imp (fun h => Nat.ne_of_lt h)
  rw [← List.toFinset_card_of_nodup hnodup]
  congr 1
  apply Finset.ext
  intro x
  rw [List.mem_toFinset, mem_commonDateSet]
  show x ∈ List.filter _ (datesOf ds0) ↔ _
  rw [List.mem_filter]
  simp only [List.all_eq_true, decide_eq_true_eq]

/-- C4: for a nonempty family of series with strictly increasing dates, the
number of aligned rows equals the size of the intersection of the series'
date sets. -/
theorem align_data_count (all_datasets : List (List DataRow))
    (hne : all_datasets ≠ [])
    (hsorted : ∀ ds ∈ all_datasets, (datesOf ds).Pairwise (· < ·)) :
    ∃ out, align_data all_datasets = some out ∧
      out.length = (commonDateSet all_datasets).card := by
  rw [align_data_eq_steps]
  obtain ⟨out, hout, hdates, _⟩ :=
    align_steps_spec (totalRows all_datasets + 1) all_datasets hne hsorted
      (Nat.lt_succ_self _)
  refine ⟨out, hout, ?_⟩
  obtain ⟨ds0, rest, rfl⟩ := List.exists_cons_of_ne_nil hne
  rw [← commonList_length_eq_card ds0 rest (hsorted ds0 (List.mem_cons_self _ _)),
    ← hdates, List.length_map]

/-- Witness for C4: two series sharing exactly one date. -/
theorem align_data_count_witness :
    (([[mkRow 1, mkRow 3], [mkRow 2, mkRow 3]] : List (List DataRow)) ≠ [] ∧
      (∀ ds ∈ ([[mkRow 1, mkRow 3], [mkRow 2, mkRow 3]] : List (List DataRow)),
        (datesOf ds).Pairwise (· < ·))) ∧
    (∃ out, align_data [[mkRow 1, mkRow 3], [mkRow 2, mkRow 3]] = some out ∧
      out.length = (commonDateSet [[mkRow 1, mkRow 3], [mkRow 2, mkRow 3]]).card) :=
  ⟨⟨by decide, by decide⟩, align_data_count _ (by decide) (by decide)⟩

/-- C5 (amended): for every NONEMPTY family of finite series — sorted or not —
the alignment loop finishes within `totalRows + 1` iterations (the fuel baked
into `align_data`), producing a finite sequence: every iteration either
breaks or advances at least one cursor. -/
theorem align_data_terminates (all_datasets : List (List DataRow))
    (hne : all_datasets ≠ []) :
    ∃ out, align_data all_datasets = some out := by
  rw [align_data_eq_steps]
  exact align_steps_total _ _ hne (Nat.lt_succ_self _)

/-- Witness for C5 on a one-series family with unsorted dates. -/
theorem align_data_terminates_witness :
    (([[mkRow 2, mkRow 1]] : List (List DataRow)) ≠ []) ∧
    (∃ out, align_data [[mkRow 2, mkRow 1]] = some out) :=
  ⟨by decide, align_data_terminates _ (by decide)⟩

/-- Counterexample to C5 as stated ("for every family"): on the EMPTY family
the Python loop raises `IndexError` at `first_date = dates[0]` on its first
iteration (modelled as `none`), so no sequence is produced. -/
theorem align_data_empty_family_cex :
    align_data ([] : List (List DataRow)) = none := rfl

end StockAnalysis
